import Mathlib

/-!
Shallow embedding of `pkg/runner/step_action_remote.go` (module `act`, package
`runner`).  Pure Go string functions become Lean functions on `String` or
`List Char`; stateful methods become explicit state passing; fallible code
returns `Option` or `Except`.  Environment variables and collaborator results
(external packages `common`, `git`, `model`) are passed as explicit arguments.
-/

/- ### Go standard-library string primitives used by the file -/

/-- Go `strings.HasPrefix(s, pre)` (argument order: prefix first here). -/
def hasPrefixGo (pre s : String) : Bool := pre.data.isPrefixOf s.data

/-- Go `strings.TrimPrefix(s, pre)`: removes `pre` when present, else returns
`s` unchanged. -/
def trimPrefixGo (pre s : String) : String :=
  if hasPrefixGo pre s then (s.data.drop pre.data.length).asString else s

/-- Substring search on character lists: does `needle` occur contiguously
inside the list? -/
def listContainsSub (needle : List Char) : List Char → Bool
  | [] => needle.isEmpty
  | c :: rest => needle.isPrefixOf (c :: rest) || listContainsSub needle rest

/-- Go `strings.Contains(s, sub)`. -/
def containsGo (s sub : String) : Bool := listContainsSub sub.data s.data

/-- Go `strings.EqualFold(a, b)`.  Go performs simple Unicode case folding;
the strings compared by the runner (org/repo slugs and configuration entries)
are ASCII, where simple folding coincides with `Char.toLower`. -/
def equalFold (a b : String) : Bool :=
  a.data.map Char.toLower == b.data.map Char.toLower

/-- Go `strings.SplitN(s, sep, n)` restricted to a one-character separator,
on character lists: at most `n` pieces, the last piece keeps the remaining
separators. -/
def splitNList (sep : Char) : Nat → List Char → List (List Char)
  | 0, _ => []
  | 1, cs => [cs]
  | n + 2, cs =>
    match cs.dropWhile (fun c => !(c == sep)) with
    | [] => [cs]
    | _ :: rest => cs.takeWhile (fun c => !(c == sep)) :: splitNList sep (n + 1) rest

/-- Go `strings.SplitN(s, sep, n)` on strings. -/
def splitN (s : String) (sep : Char) (n : Nat) : List String :=
  (splitNList sep n s.data).map List.asString

/- ### The data model: struct `remoteAction` (lines 221-227) -/

/-- The `remoteAction` struct: a parsed action reference.  `URL` is the base
URL recorded for scheme-prefixed references (empty for bare references),
`Org`/`Repo` the required path segments, `Path` the optional subpath inside
the repository, `Ref` the mandatory pinned version. -/
structure remoteAction where
  URL : String
  Org : String
  Repo : String
  Path : String
  Ref : String
  deriving DecidableEq, Repr

/-- `(*remoteAction).CloneURL(u)` (lines 229-239): base URL is `ra.URL` when
set, otherwise `u` normalized to carry an `https://` scheme; the clone URL
appends `/Org/Repo`. -/
def remoteAction.CloneURL (ra : remoteAction) (u : String) : String :=
  (if ra.URL = "" then
    (if !(hasPrefixGo "http://" u) && !(hasPrefixGo "https://" u) then "https://" ++ u else u)
  else ra.URL) ++ "/" ++ ra.Org ++ "/" ++ ra.Repo

/-- The base part of `CloneURL` (everything before `/Org/Repo`). -/
def remoteAction.resolvedBase (ra : remoteAction) (u : String) : String :=
  if ra.URL = "" then
    (if !(hasPrefixGo "http://" u) && !(hasPrefixGo "https://" u) then "https://" ++ u else u)
  else ra.URL

/-- `(*remoteAction).IsCheckout()` (lines 241-246). -/
def remoteAction.IsCheckout (ra : remoteAction) : Bool :=
  ra.Org == "actions" && ra.Repo == "checkout"

/- ### The parser: `parseAction` (lines 306-324) and `newRemoteAction`
(lines 274-304) -/

/-- A character allowed inside the `org` and `repo` segments of the uses
grammar (`[^/@]` in the Go regular expression). -/
def isSegChar (c : Char) : Bool := !(c == '/' || c == '@')

/-- `parseAction` on character lists.  Faithful to the Go regular expression
`^([^/@]+)/([^/@]+)(/([^@]*))?(@(.*))?$` and the guard `matches[6] == ""`:
`org` and `repo` are the maximal nonempty runs free of `/` and `@`; an
optional `/`-introduced subpath runs up to the first following `@`; the ref
is the remainder after that `@` and must be nonempty.  Go `.` does not match
a newline, so a ref containing a newline makes the whole regular expression
fail, hence the newline guard. -/
def parseActionList (cs : List Char) : Option remoteAction :=
  let org := cs.takeWhile isSegChar
  if org.isEmpty then none else
  match cs.dropWhile isSegChar with
  | [] => none
  | c1 :: r2 =>
    if c1 = '/' then
      let repo := r2.takeWhile isSegChar
      if repo.isEmpty then none else
      match r2.dropWhile isSegChar with
      | [] => none
      | c2 :: rest =>
        if c2 = '/' then
          let path := rest.takeWhile (fun c => !(c == '@'))
          match rest.dropWhile (fun c => !(c == '@')) with
          | [] => none
          | c3 :: ref =>
            if c3 = '@' then
              if ref.isEmpty || ref.contains '\n' then none
              else some ⟨"", org.asString, repo.asString, path.asString, ref.asString⟩
            else none
        else if c2 = '@' then
          if rest.isEmpty || rest.contains '\n' then none
          else some ⟨"", org.asString, repo.asString, "", rest.asString⟩
        else none
    else none

/-- `parseAction(action)` (lines 306-324): parse `org/repo[/path]@ref`,
returning `none` (never a partial reference) on failure. -/
def parseAction (action : String) : Option remoteAction :=
  parseActionList action.data

/-- `isJuegoInternalServerPrefix(action)` (lines 254-261): hard-coded
detection of the one service-prefixed hosting server. -/
def isJuegoInternalServerPrefix (action : String) : Bool :=
  if containsGo action "internal-git.juegostudio.net/git" then true else false

/-- `hasAServicePrefix(action)` (lines 263-270). -/
def hasAServicePrefix (action : String) : Bool :=
  if isJuegoInternalServerPrefix action then true else false

/-- The scheme-prefixed branch of `newRemoteAction` for a given scheme
(lines 277-300): when the service-prefix predicate matches the whole uses
string, one extra leading path segment is consumed after the host and
recorded in the base URL; otherwise only the host is. -/
def newRemoteActionSchema (schema action : String) : Option remoteAction :=
  if hasAServicePrefix action then
    match splitN (trimPrefixGo schema action) '/' 3 with
    | [a, b, c] =>
      match parseAction c with
      | none => none
      | some ret => some { ret with URL := schema ++ a ++ "/" ++ b }
    | _ => none
  else
    match splitN (trimPrefixGo schema action) '/' 2 with
    | [a, b] =>
      match parseAction b with
      | none => none
      | some ret => some { ret with URL := schema ++ a }
    | _ => none

/-- `newRemoteAction(action)` (lines 274-304): try the `https://` scheme,
then `http://`, else parse the bare form. -/
def newRemoteAction (action : String) : Option remoteAction :=
  if hasPrefixGo "https://" action then newRemoteActionSchema "https://" action
  else if hasPrefixGo "http://" action then newRemoteActionSchema "http://" action
  else parseAction action

/- ### Cache path: `safeFilename` (lines 326-338) -/

/-- The character substitution of `safeFilename`: each of the nine
filesystem-unsafe characters becomes `-`, written as the same chain of
single-character replacements the Go `strings.NewReplacer` performs. -/
def safeChar (c : Char) : Char :=
  if c == '<' then '-'
  else if c == '>' then '-'
  else if c == ':' then '-'
  else if c == '\"' then '-'
  else if c == '/' then '-'
  else if c == '\\' then '-'
  else if c == '|' then '-'
  else if c == '?' then '-'
  else if c == '*' then '-'
  else c

/-- `safeFilename(s)` (lines 326-338): per-character replacement of the nine
filesystem-unsafe characters by `-`. -/
def safeFilename (s : String) : String := (s.data.map safeChar).asString

/-- The action cache directory as computed in `prepareActionExecutor`
(line 70): `ActionCacheDir() + "/" + safeFilename(uses)`. -/
def actionDirPrepare (cacheDir uses : String) : String :=
  cacheDir ++ "/" ++ safeFilename uses

/-- The action cache directory as recomputed in `main` (line 138). -/
def actionDirMain (cacheDir uses : String) : String :=
  cacheDir ++ "/" ++ safeFilename uses

/-- The action cache directory as recomputed in `getCompositeRunContext`
(line 197). -/
def actionDirComposite (cacheDir uses : String) : String :=
  cacheDir ++ "/" ++ safeFilename uses

/- ### Credential scoping (lines 65-69, 249-252) -/

/-- `isActionOnGiteaInstance(action)` (lines 249-252): the environment
variable `GITEA_INSTANCE_URL` is passed explicitly.  Note the Go code tests
`strings.HasPrefix`, not equality. -/
def isActionOnGiteaInstance (giteaInstanceURL action : String) : Bool :=
  hasPrefixGo giteaInstanceURL action

/-- The token selection of `prepareActionExecutor` (lines 65-69): the
`GITEA_RUNNER_TOKEN` environment value is attached exactly when
`isActionOnGiteaInstance` accepts the clone URL, else the token is empty. -/
def cloneToken (giteaInstanceURL runnerToken cloneURL : String) : String :=
  if isActionOnGiteaInstance giteaInstanceURL cloneURL then runnerToken else ""

/- ### GHE replacement (lines 59-64) -/

/-- One iteration of the `ReplaceGheActionWithGithubCom` loop body: when the
entry case-insensitively equals `Org/Repo`, the base URL is rewritten to
`https://github.com` and the github-context token is replaced by the
configured replacement token. -/
def replaceGheStep (replToken : String) (p : remoteAction × String) (entry : String) :
    remoteAction × String :=
  if equalFold (p.1.Org ++ "/" ++ p.1.Repo) entry then
    ({ p.1 with URL := "https://github.com" }, replToken)
  else p

/-- The `for` loop over `Config.ReplaceGheActionWithGithubCom` in
`prepareActionExecutor` (lines 59-64), threading the parsed reference and the
github-context token. -/
def applyReplaceGhe (entries : List String) (replToken : String)
    (ra : remoteAction) (githubToken : String) : remoteAction × String :=
  entries.foldl (replaceGheStep replToken) (ra, githubToken)

/- ### Clone failure differentiation (lines 85-111) -/

/-- The typed clone failures distinguished by `prepareActionExecutor`:
`git.ErrShortRef` (carrying the full commit the short ref resolved to),
`gogit.ErrForceNeeded`, or any other error carried unchanged. -/
inductive CloneErr where
  | shortRef (commit : String)
  | forceNeeded
  | other (msg : String)
  deriving DecidableEq, Repr

/-- The fatal message built for a short ref (lines 88-89). -/
def shortRefMessage (uses ref commit : String) : String :=
  "Unable to resolve action `" ++ uses ++ "`, the provided ref `" ++ ref ++
  "` is the shortened version of a commit SHA, which is not supported. Please use the full commit SHA `" ++
  commit ++ "` instead"

/-- Outcome of the clone-error handling: the fatal error returned to the
caller (if any), whether a non-fatal informational message was logged, and
whether the pipeline goes on to load the action from the cache directory. -/
structure FetchOutcome where
  fatal : Option String
  info : Bool
  loadFromCache : Bool
  deriving DecidableEq, Repr

/-- The clone-error differentiation of `prepareActionExecutor`
(lines 85-111): a short ref is fatal with a guidance message; a
force-needed (cannot fast-forward the cache in place) error is logged as
informational and the pipeline continues into the action read; any other
error is returned unchanged; on success the pipeline also continues into the
read. -/
def resolveCloneOutcome (uses ref : String) (res : Option CloneErr) : FetchOutcome :=
  match res with
  | none => ⟨none, false, true⟩
  | some (.shortRef commit) => ⟨some (shortRefMessage uses ref commit), false, false⟩
  | some .forceNeeded => ⟨none, true, true⟩
  | some (.other msg) => ⟨some msg, false, false⟩

/- ### Step lifecycle: stage conditions (lines 174-189) and the main stage
body (lines 123-143) -/

/-- The three lifecycle stages. -/
inductive stepStage where
  | pre
  | main
  | post
  deriving DecidableEq, Repr

/-- `getIfExpression` (lines 174-189).  `localCheckout` is the value of
`isLocalCheckout(github, step)` (defined outside this file: true when the
caller already populated the execution target's working tree);
`preIf`/`stepIf`/`postIf` are `action.Runs.PreIf`, `step.If.Value` and
`action.Runs.PostIf`. -/
def getIfExpression (ra : remoteAction) (localCheckout noSkipCheckout : Bool)
    (preIf stepIf postIf : String) : stepStage → String
  | .pre =>
    if ra.IsCheckout && localCheckout && !noSkipCheckout then "false"
    else preIf
  | .main => stepIf
  | .post => postIf

/-- What the main-stage body does (lines 126-141): skip outright when the
workspace is bound into the execution target, copy the caller's workdir into
the target for a recognized local checkout, or run the fetched action. -/
inductive MainAction where
  | skipBoundWorkdir
  | copyWorkdir
  | runRemoteAction
  deriving DecidableEq, Repr

/-- The branch structure of the main-stage executor (lines 126-141). -/
def mainStepBehavior (ra : remoteAction) (localCheckout noSkipCheckout bindWorkdir : Bool) :
    MainAction :=
  if ra.IsCheckout && localCheckout && !noSkipCheckout then
    if bindWorkdir then .skipBoundWorkdir
    else .copyWorkdir
  else .runRemoteAction

/- ### Resolution state and `prepareActionExecutor` (lines 35-113) -/

/-- The loaded action definition, kept opaque (package `model` is external
to this file). -/
abbrev ActionModel := String

/-- The configuration and environment inputs `prepareActionExecutor` reads:
`RunContext.Config` fields, `RunContext.ActionCacheDir()`, and the two
`GITEA_*` environment variables. -/
structure PrepareConfig where
  NoSkipCheckout : Bool
  ReplaceGheActionWithGithubCom : List String
  ReplaceGheActionTokenWithGithubCom : String
  DefaultActionInstance : String
  ActionCacheDir : String
  GiteaInstanceURL : String
  GiteaRunnerToken : String
  deriving DecidableEq, Repr

/-- The mutable per-step-instance state `prepareActionExecutor` touches:
`Step.Uses`, `sar.remoteAction`, `sar.action`, and the github-context
token. -/
structure SarState where
  uses : String
  remoteAction : Option remoteAction
  action : Option ActionModel
  githubToken : String
  deriving DecidableEq, Repr

/-- Observable side effects of one run of `prepareActionExecutor`, in
order: interpolating the uses string, parsing it, invoking the git clone
(with its url, ref, token and destination directory), and reading the
action definition. -/
inductive PrepEffect where
  | interpolate
  | parse
  | clone (url ref token dir : String)
  | load
  deriving DecidableEq, Repr

/-- `prepareActionExecutor` (lines 35-113) as a state transition.
`interp` models the expression evaluator, `localCheckout` the value of
`isLocalCheckout`, `cloneRes` the result of the git clone executor, and
`readRes` the result of `readAction`; the second component lists the
effects performed. -/
def prepareActionExecutor (cfg : PrepareConfig) (interp : String → String)
    (localCheckout : Bool) (cloneRes : Option CloneErr)
    (readRes : Except String ActionModel) (s : SarState) :
    Except String SarState × List PrepEffect :=
  if s.remoteAction.isSome && s.action.isSome then
    -- we are already good to run
    (.ok s, [])
  else
    let uses := interp s.uses
    match newRemoteAction uses with
    | none =>
      (.error ("Expected format {org}/{repo}[/path]@ref. Actual " ++ uses ++
        " Input string was not in a correct format"), [.interpolate, .parse])
    | some ra0 =>
      if ra0.IsCheckout && localCheckout && !cfg.NoSkipCheckout then
        -- skipping local actions/checkout because workdir was already copied
        (.ok { s with uses := uses, remoteAction := some ra0 }, [.interpolate, .parse])
      else
        let rt := applyReplaceGhe cfg.ReplaceGheActionWithGithubCom
          cfg.ReplaceGheActionTokenWithGithubCom ra0 s.githubToken
        let cloneURL := rt.1.CloneURL cfg.DefaultActionInstance
        let token := cloneToken cfg.GiteaInstanceURL cfg.GiteaRunnerToken cloneURL
        let actionDir := actionDirPrepare cfg.ActionCacheDir uses
        let outcome := resolveCloneOutcome uses rt.1.Ref cloneRes
        let effs := [PrepEffect.interpolate, PrepEffect.parse,
          PrepEffect.clone cloneURL rt.1.Ref token actionDir]
        match outcome.fatal with
        | some e => (.error e, effs)
        | none =>
          match readRes with
          | .ok a => (.ok ⟨uses, some rt.1, some a, rt.2⟩, effs ++ [.load])
          | .error e => (.error e, effs ++ [.load])

/- ### Composite context (lines 195-215) -/

/-- Modelled from the spec: the subordinate execution context built by
`newCompositeRunContext` (defined outside this file).  It owns an
environment overlay, an extra search path, the location of the fetched
action sources, and the ordered nested step list produced by
`compositeExecutor`; the step list entries are kept opaque. -/
structure CompositeRC where
  Env : List (String × String)
  ExtraPath : List String
  ActionDir : String
  Steps : List String
  deriving DecidableEq, Repr

/-- The per-step-instance composite state: the lazily built context and the
nested step list (`sar.compositeRunContext`, `sar.compositeSteps`). -/
structure CompositeState where
  compositeRunContext : Option CompositeRC
  compositeSteps : Option (List String)
  deriving DecidableEq, Repr

/-- `getCompositeRunContext` (lines 195-215) as a state transition.
`evalEnv` models `evaluateCompositeInputAndEnv` on the current
inputs/outputs, `parentExtraPath` the parent context's `ExtraPath`,
`containerActionDir` the translated action location, and `actionSteps` the
nested step list `compositeExecutor` derives from the loaded action.  On
first access the context and the step list are built; on every later access
only `Env` and `ExtraPath` are recomputed. -/
def getCompositeRunContext (evalEnv : List (String × String))
    (parentExtraPath : List String) (containerActionDir : String)
    (actionSteps : List String) (st : CompositeState) :
    CompositeRC × CompositeState :=
  match st.compositeRunContext with
  | none =>
    let rc : CompositeRC :=
      { Env := evalEnv, ExtraPath := parentExtraPath,
        ActionDir := containerActionDir, Steps := actionSteps }
    (rc, { compositeRunContext := some rc, compositeSteps := some actionSteps })
  | some rc =>
    let rc2 := { rc with Env := evalEnv, ExtraPath := parentExtraPath }
    (rc2, { st with compositeRunContext := some rc2 })

/- ### Helper lemmas on strings and lists -/

theorem str_data_append (a b : String) : (a ++ b).data = a.data ++ b.data := rfl

theorem asString_data (s : String) : (s.data).asString = s := rfl

theorem data_asString (l : List Char) : (l.asString).data = l := rfl

theorem isPrefixOf_append_self (l t : List Char) : l.isPrefixOf (l ++ t) = true := by
  simp [List.isPrefixOf_iff_prefix]

theorem takeWhile_append_stop (p : Char → Bool) (h : List Char) (c : Char) (t : List Char)
    (hh : ∀ x ∈ h, p x = true) (hc : p c = false) :
    (h ++ c :: t).takeWhile p = h := by
  induction h with
  | nil => simp [List.takeWhile_cons, hc]
  | cons a as ih =>
    have ha : p a = true := hh a (by simp)
    simp only [List.cons_append, List.takeWhile_cons, ha, if_true]
    rw [ih (fun x hx => hh x (by simp [hx]))]

theorem dropWhile_append_stop (p : Char → Bool) (h : List Char) (c : Char) (t : List Char)
    (hh : ∀ x ∈ h, p x = true) (hc : p c = false) :
    (h ++ c :: t).dropWhile p = c :: t := by
  induction h with
  | nil => simp [List.dropWhile_cons, hc]
  | cons a as ih =>
    have ha : p a = true := hh a (by simp)
    simp only [List.cons_append, List.dropWhile_cons, ha, if_true]
    exact ih (fun x hx => hh x (by simp [hx]))

theorem takeWhile_append_all (p : Char → Bool) (h t : List Char)
    (hh : ∀ x ∈ h, p x = true) :
    (h ++ t).takeWhile p = h ++ t.takeWhile p := by
  induction h with
  | nil => simp
  | cons a as ih =>
    have ha : p a = true := hh a (by simp)
    simp only [List.cons_append, List.takeWhile_cons, ha, if_true]
    rw [ih (fun x hx => hh x (by simp [hx]))]

theorem first_occ_unique (X l r1 r2 : List Char) (hX : '@' ∉ X) (hl : '@' ∉ l)
    (he : X ++ '@' :: r1 = l ++ '@' :: r2) : X = l ∧ r1 = r2 := by
  induction X generalizing l with
  | nil =>
    cases l with
    | nil => simpa using he
    | cons b bs =>
      simp only [List.nil_append, List.cons_append, List.cons.injEq] at he
      exact absurd (he.1 ▸ List.mem_cons_self b bs : '@' ∈ b :: bs) hl
  | cons a as ih =>
    cases l with
    | nil =>
      simp only [List.cons_append, List.nil_append, List.cons.injEq] at he
      exact absurd (he.1 ▸ List.mem_cons_self a as : '@' ∈ a :: as) hX
    | cons b bs =>
      simp only [List.cons_append, List.cons.injEq] at he
      have hX' : '@' ∉ as := fun hmem => hX (List.mem_cons_of_mem a hmem)
      have hl' : '@' ∉ bs := fun hmem => hl (List.mem_cons_of_mem b hmem)
      obtain ⟨h1, h2⟩ := ih bs hX' hl' he.2
      exact ⟨by rw [he.1, h1], h2⟩
theorem isSegChar_spec (c : Char) (h : isSegChar c = true) : c ≠ '/' ∧ c ≠ '@' := by
  simp [isSegChar] at h
  exact h

theorem parseActionList_some_decomp (cs : List Char) (ra : remoteAction)
    (h : parseActionList cs = some ra) :
    ra.URL = "" ∧ ra.Org.data ≠ [] ∧ ra.Repo.data ≠ [] ∧ ra.Ref.data ≠ [] ∧
    (∀ c ∈ ra.Org.data, c ≠ '/' ∧ c ≠ '@') ∧
    (∀ c ∈ ra.Repo.data, c ≠ '/' ∧ c ≠ '@') ∧
    (∀ c ∈ ra.Path.data, c ≠ '@') ∧
    ((ra.Path = "" ∧ cs = ra.Org.data ++ '/' :: ra.Repo.data ++ '@' :: ra.Ref.data) ∨
      cs = ra.Org.data ++ '/' :: ra.Repo.data ++ '/' :: ra.Path.data ++ '@' :: ra.Ref.data) := by
  have hcs := List.takeWhile_append_dropWhile isSegChar cs
  simp only [parseActionList] at h
  rcases hdw : cs.dropWhile isSegChar with _ | ⟨c1, r2⟩
  · rw [hdw] at h
    by_cases horg : (cs.takeWhile isSegChar).isEmpty <;> simp [horg] at h
  · rw [hdw] at h
    by_cases horg : (cs.takeWhile isSegChar).isEmpty
    · simp [horg] at h
    · rw [if_neg horg] at h
      dsimp only at h
      by_cases hc1 : c1 = '/'
      · rw [if_pos hc1] at h
        have hr2 := List.takeWhile_append_dropWhile isSegChar r2
        have e1 : cs = cs.takeWhile isSegChar ++ '/' :: r2 := by
          conv_lhs => rw [← hcs]
          rw [hdw, hc1]
        rcases hdw2 : r2.dropWhile isSegChar with _ | ⟨c2, rest⟩
        · rw [hdw2] at h
          by_cases hrepo : (r2.takeWhile isSegChar).isEmpty <;> simp [hrepo] at h
        · rw [hdw2] at h
          by_cases hrepo : (r2.takeWhile isSegChar).isEmpty
          · simp [hrepo] at h
          · rw [if_neg hrepo] at h
            dsimp only at h
            by_cases hc2 : c2 = '/'
            · rw [if_pos hc2] at h
              have hrest := List.takeWhile_append_dropWhile (fun c => !(c == '@')) rest
              have e2 : r2 = r2.takeWhile isSegChar ++ '/' :: rest := by
                conv_lhs => rw [← hr2]
                rw [hdw2, hc2]
              rcases hdw3 : rest.dropWhile (fun c => !(c == '@')) with _ | ⟨c3, ref⟩
              · rw [hdw3] at h; simp at h
              · rw [hdw3] at h
                dsimp only at h
                by_cases hc3 : c3 = '@'
                · rw [if_pos hc3] at h
                  have e3 : rest = rest.takeWhile (fun c => !(c == '@')) ++ '@' :: ref := by
                    conv_lhs => rw [← hrest]
                    rw [hdw3, hc3]
                  by_cases href : (ref.isEmpty || ref.contains '\n') = true
                  · rw [if_pos href] at h; simp at h
                  · rw [if_neg href] at h
                    simp only [Option.some.injEq] at h
                    subst h
                    simp only [Bool.or_eq_true, not_or] at href
                    refine ⟨rfl, ?_, ?_, ?_, ?_, ?_, ?_, ?_⟩
                    · simpa [data_asString, List.isEmpty_iff] using horg
                    · simpa [data_asString, List.isEmpty_iff] using hrepo
                    · simpa [data_asString, List.isEmpty_iff] using href.1
                    · intro c hc
                      exact isSegChar_spec c (List.mem_takeWhile_imp hc)
                    · intro c hc
                      exact isSegChar_spec c (List.mem_takeWhile_imp hc)
                    · intro c hc
                      have := List.mem_takeWhile_imp hc
                      simpa using this
                    · right
                      rw [data_asString, data_asString, data_asString, data_asString]
                      conv_lhs => rw [e1, e2, e3]
                      simp [List.append_assoc]
                · rw [if_neg hc3] at h; simp at h
            · rw [if_neg hc2] at h
              by_cases hc2at : c2 = '@'
              · rw [if_pos hc2at] at h
                have e2 : r2 = r2.takeWhile isSegChar ++ '@' :: rest := by
                  conv_lhs => rw [← hr2]
                  rw [hdw2, hc2at]
                by_cases hrest : (rest.isEmpty || rest.contains '\n') = true
                · rw [if_pos hrest] at h; simp at h
                · rw [if_neg hrest] at h
                  simp only [Option.some.injEq] at h
                  subst h
                  simp only [Bool.or_eq_true, not_or] at hrest
                  refine ⟨rfl, ?_, ?_, ?_, ?_, ?_, ?_, ?_⟩
                  · simpa [data_asString, List.isEmpty_iff] using horg
                  · simpa [data_asString, List.isEmpty_iff] using hrepo
                  · simpa [data_asString, List.isEmpty_iff] using hrest.1
                  · intro c hc
                    exact isSegChar_spec c (List.mem_takeWhile_imp hc)
                  · intro c hc
                    exact isSegChar_spec c (List.mem_takeWhile_imp hc)
                  · intro c hc
                    simp at hc
                  · left
                    refine ⟨rfl, ?_⟩
                    rw [data_asString, data_asString, data_asString]
                    conv_lhs => rw [e1, e2]
                    simp [List.append_assoc]
              · rw [if_neg hc2at] at h; simp at h
      · rw [if_neg hc1] at h; simp at h

theorem splitNList_one (sep : Char) (t : List Char) : splitNList sep 1 t = [t] := rfl

theorem splitNList_step (sep : Char) (n : Nat) (h t : List Char) (hh : sep ∉ h) :
    splitNList sep (n + 2) (h ++ sep :: t) = h :: splitNList sep (n + 1) t := by
  have hall : ∀ x ∈ h, (fun c => !(c == sep)) x = true := by
    intro x hx
    simp only [Bool.not_eq_true', beq_eq_false_iff_ne, ne_eq]
    exact fun e => hh (e ▸ hx)
  have hstop : (fun c => !(c == sep)) sep = false := by simp
  have hdrop : (h ++ sep :: t).dropWhile (fun c => !(c == sep)) = sep :: t :=
    dropWhile_append_stop _ h sep t hall hstop
  have htake : (h ++ sep :: t).takeWhile (fun c => !(c == sep)) = h :=
    takeWhile_append_stop _ h sep t hall hstop
  simp only [splitNList]
  rw [hdrop, htake]

theorem foldGhe_fields (tok : String) (entries : List String) (p : remoteAction × String) :
    (entries.foldl (replaceGheStep tok) p).1.Org = p.1.Org ∧
    (entries.foldl (replaceGheStep tok) p).1.Repo = p.1.Repo ∧
    (entries.foldl (replaceGheStep tok) p).1.Path = p.1.Path ∧
    (entries.foldl (replaceGheStep tok) p).1.Ref = p.1.Ref := by
  induction entries generalizing p with
  | nil => exact ⟨rfl, rfl, rfl, rfl⟩
  | cons e es ih =>
    simp only [List.foldl_cons]
    have hstep : (replaceGheStep tok p e).1.Org = p.1.Org ∧
        (replaceGheStep tok p e).1.Repo = p.1.Repo ∧
        (replaceGheStep tok p e).1.Path = p.1.Path ∧
        (replaceGheStep tok p e).1.Ref = p.1.Ref := by
      simp only [replaceGheStep]
      split_ifs <;> exact ⟨rfl, rfl, rfl, rfl⟩
    obtain ⟨i1, i2, i3, i4⟩ := ih (replaceGheStep tok p e)
    exact ⟨i1.trans hstep.1, i2.trans hstep.2.1, i3.trans hstep.2.2.1, i4.trans hstep.2.2.2⟩

theorem foldGhe_keeps (tok : String) (entries : List String) (p : remoteAction × String)
    (h1 : p.1.URL = "https://github.com") (h2 : p.2 = tok) :
    (entries.foldl (replaceGheStep tok) p).1.URL = "https://github.com" ∧
    (entries.foldl (replaceGheStep tok) p).2 = tok := by
  induction entries generalizing p with
  | nil => exact ⟨h1, h2⟩
  | cons e es ih =>
    simp only [List.foldl_cons]
    by_cases hm : equalFold (p.1.Org ++ "/" ++ p.1.Repo) e = true
    · exact ih (replaceGheStep tok p e) (by simp [replaceGheStep, hm]) (by simp [replaceGheStep, hm])
    · have hkeep : replaceGheStep tok p e = p := by
        simp only [replaceGheStep]
        rw [if_neg]
        simpa using hm
      rw [hkeep]
      exact ih p h1 h2

theorem cloneURL_eq_base (ra : remoteAction) (u : String) :
    ra.CloneURL u = ra.resolvedBase u ++ "/" ++ ra.Org ++ "/" ++ ra.Repo := rfl
/- ### Claim theorems -/

/-- Claim C2: for a parsed reference, exactly the `org == "actions"`,
`repo == "checkout"` references, when the caller already populated the
working tree (`localCheckout = true`) and the skip optimization is enabled
(`noSkipCheckout = false`), have their pre stage condition forced to
`"false"` and their main stage replaced by a directory copy — or by nothing
at all when the workdir is bound (`bindWorkdir = true`); every other
reference keeps its declared pre condition and runs the action normally. -/
theorem checkout_skip_pre_and_main :
    ∀ (ra : remoteAction) (bindWorkdir : Bool) (preIf stepIf postIf : String),
      (ra.IsCheckout = true →
        getIfExpression ra true false preIf stepIf postIf .pre = "false" ∧
        mainStepBehavior ra true false bindWorkdir =
          (if bindWorkdir then .skipBoundWorkdir else .copyWorkdir)) ∧
      (ra.IsCheckout = false →
        getIfExpression ra true false preIf stepIf postIf .pre = preIf ∧
        mainStepBehavior ra true false bindWorkdir = .runRemoteAction) := by
  intro ra bind preIf stepIf postIf
  constructor
  · intro h
    constructor
    · simp [getIfExpression, h]
    · simp [mainStepBehavior, h]
  · intro h
    constructor
    · simp [getIfExpression, h]
    · simp [mainStepBehavior, h]

theorem checkout_skip_pre_and_main_witness :
    getIfExpression ⟨"", "actions", "checkout", "", "v4"⟩ true false "pc" "ic" "qc" .pre = "false" ∧
    mainStepBehavior ⟨"", "actions", "checkout", "", "v4"⟩ true false false =
      (if false then .skipBoundWorkdir else .copyWorkdir) :=
  (checkout_skip_pre_and_main ⟨"", "actions", "checkout", "", "v4"⟩ false "pc" "ic" "qc").1
    (by decide)

/-- Claim C4: the clone failure handling distinguishes exactly three cases:
a short (abbreviated commit) ref is fatal with a message instructing use of
the full commit SHA; a force-needed error (cache cannot be fast-forwarded)
is non-fatal, logged informationally, and the resolution continues to load
from the cache; any other clone error is fatal and propagated unchanged. -/
theorem clone_failure_differentiation :
    ∀ uses ref commit msg : String,
      resolveCloneOutcome uses ref (some (.shortRef commit)) =
        ⟨some (shortRefMessage uses ref commit), false, false⟩ ∧
      ("Please use the full commit SHA").data <:+: (shortRefMessage uses ref commit).data ∧
      resolveCloneOutcome uses ref (some .forceNeeded) = ⟨none, true, true⟩ ∧
      resolveCloneOutcome uses ref (some (.other msg)) = ⟨some msg, false, false⟩ ∧
      resolveCloneOutcome uses ref none = ⟨none, false, true⟩ := by
  intro u r c m
  refine ⟨rfl, ?_, rfl, rfl, rfl⟩
  have hsplit : ("` is the shortened version of a commit SHA, which is not supported. Please use the full commit SHA `" : String) =
      "` is the shortened version of a commit SHA, which is not supported. " ++
        "Please use the full commit SHA" ++ " `" := by
    rfl
  have hC : ("Please use the full commit SHA").data <:+:
      ("` is the shortened version of a commit SHA, which is not supported. Please use the full commit SHA `").data := by
    rw [hsplit]
    exact ⟨("` is the shortened version of a commit SHA, which is not supported. ").data,
      (" `").data, by simp [str_data_append, List.append_assoc]⟩
  refine hC.trans ?_
  refine ⟨("Unable to resolve action `" ++ u ++ "`, the provided ref `" ++ r).data,
    (c ++ "` instead").data, ?_⟩
  simp [shortRefMessage, str_data_append, List.append_assoc]

/-- Claim C7: the cache directory is the pure function
`cacheRoot ++ "/" ++ safeFilename(uses)`, identically at all three places it
is computed; `safeFilename` replaces exactly the nine filesystem-unsafe
characters by `-` and leaves every other character, `@` included,
unchanged. -/
theorem cache_path_deterministic :
    (∀ cacheDir uses : String,
      actionDirPrepare cacheDir uses = cacheDir ++ "/" ++ safeFilename uses ∧
      actionDirMain cacheDir uses = actionDirPrepare cacheDir uses ∧
      actionDirComposite cacheDir uses = actionDirPrepare cacheDir uses) ∧
    (∀ s : String, (safeFilename s).data = s.data.map safeChar) ∧
    (∀ c : Char,
      safeChar c =
        if c = '<' ∨ c = '>' ∨ c = ':' ∨ c = '\"' ∨ c = '/' ∨ c = '\\' ∨ c = '|' ∨ c = '?' ∨ c = '*'
        then '-' else c) ∧
    safeFilename "org/repo@v1" = "org-repo@v1" ∧ safeChar '@' = '@' := by
  refine ⟨fun cd u => ⟨rfl, rfl, rfl⟩, fun s => rfl, fun c => ?_, by decide, by decide⟩
  simp only [safeChar, beq_iff_eq]
  split_ifs <;> first | rfl | tauto

/-- Claim C8: a step instance whose reference is already parsed and whose
action definition is already loaded (both fields non-nil) makes
`prepareActionExecutor` return success immediately: the state is unchanged
and no interpolation, parse, clone or load effect is performed. -/
theorem prepare_already_resolved_noop :
    ∀ (cfg : PrepareConfig) (interp : String → String) (localCheckout : Bool)
      (cloneRes : Option CloneErr) (readRes : Except String ActionModel) (s : SarState),
      s.remoteAction.isSome = true → s.action.isSome = true →
      prepareActionExecutor cfg interp localCheckout cloneRes readRes s = (.ok s, []) := by
  intro cfg interp lc cr rr s h1 h2
  simp [prepareActionExecutor, h1, h2]

theorem prepare_already_resolved_noop_witness :
    prepareActionExecutor ⟨false, [], "", "", "", "", ""⟩ (fun u => u) false none (.ok "am")
      ⟨"u", some ⟨"", "a", "b", "", "c"⟩, some "am", "tok"⟩ =
      (.ok ⟨"u", some ⟨"", "a", "b", "", "c"⟩, some "am", "tok"⟩, []) :=
  prepare_already_resolved_noop ⟨false, [], "", "", "", "", ""⟩ (fun u => u) false none (.ok "am")
    ⟨"u", some ⟨"", "a", "b", "", "c"⟩, some "am", "tok"⟩ rfl rfl

/-- Claim C9: the composite run context is built (with its nested step
list) exactly on the first access; every later access recomputes only the
environment overlay and the extra search path, leaving the action location,
the nested step list and the stored `compositeSteps` unchanged. -/
theorem composite_context_build_once_refresh :
    ∀ (evalEnv : List (String × String)) (parentExtraPath : List String)
      (dir : String) (steps : List String) (st : CompositeState) (rc : CompositeRC),
      (st.compositeRunContext = none →
        getCompositeRunContext evalEnv parentExtraPath dir steps st =
          (⟨evalEnv, parentExtraPath, dir, steps⟩,
            ⟨some ⟨evalEnv, parentExtraPath, dir, steps⟩, some steps⟩)) ∧
      (st.compositeRunContext = some rc →
        (getCompositeRunContext evalEnv parentExtraPath dir steps st).1.Env = evalEnv ∧
        (getCompositeRunContext evalEnv parentExtraPath dir steps st).1.ExtraPath = parentExtraPath ∧
        (getCompositeRunContext evalEnv parentExtraPath dir steps st).1.ActionDir = rc.ActionDir ∧
        (getCompositeRunContext evalEnv parentExtraPath dir steps st).1.Steps = rc.Steps ∧
        (getCompositeRunContext evalEnv parentExtraPath dir steps st).2.compositeSteps =
          st.compositeSteps ∧
        (getCompositeRunContext evalEnv parentExtraPath dir steps st).2.compositeRunContext =
          some (getCompositeRunContext evalEnv parentExtraPath dir steps st).1) := by
  intro env pp dir steps st rc
  constructor
  · intro h
    simp [getCompositeRunContext, h]
  · intro h
    simp [getCompositeRunContext, h]

theorem composite_context_build_once_refresh_witness :
    (getCompositeRunContext [("k", "v")] ["p"] "dir" ["s1"]
      ⟨some ⟨[], [], "dir0", ["s0"]⟩, some ["s0"]⟩).1.Env = [("k", "v")] ∧
    (getCompositeRunContext [("k", "v")] ["p"] "dir" ["s1"]
      ⟨some ⟨[], [], "dir0", ["s0"]⟩, some ["s0"]⟩).1.ExtraPath = ["p"] ∧
    (getCompositeRunContext [("k", "v")] ["p"] "dir" ["s1"]
      ⟨some ⟨[], [], "dir0", ["s0"]⟩, some ["s0"]⟩).1.ActionDir =
      (⟨[], [], "dir0", ["s0"]⟩ : CompositeRC).ActionDir ∧
    (getCompositeRunContext [("k", "v")] ["p"] "dir" ["s1"]
      ⟨some ⟨[], [], "dir0", ["s0"]⟩, some ["s0"]⟩).1.Steps =
      (⟨[], [], "dir0", ["s0"]⟩ : CompositeRC).Steps ∧
    (getCompositeRunContext [("k", "v")] ["p"] "dir" ["s1"]
      ⟨some ⟨[], [], "dir0", ["s0"]⟩, some ["s0"]⟩).2.compositeSteps =
      (⟨some ⟨[], [], "dir0", ["s0"]⟩, some ["s0"]⟩ : CompositeState).compositeSteps ∧
    (getCompositeRunContext [("k", "v")] ["p"] "dir" ["s1"]
      ⟨some ⟨[], [], "dir0", ["s0"]⟩, some ["s0"]⟩).2.compositeRunContext =
      some (getCompositeRunContext [("k", "v")] ["p"] "dir" ["s1"]
        ⟨some ⟨[], [], "dir0", ["s0"]⟩, some ["s0"]⟩).1 :=
  (composite_context_build_once_refresh [("k", "v")] ["p"] "dir" ["s1"]
    ⟨some ⟨[], [], "dir0", ["s0"]⟩, some ["s0"]⟩ ⟨[], [], "dir0", ["s0"]⟩).2 rfl
/-- Claim C10: a step whose parsed `org/repo` case-insensitively equals an
entry of the configured replace-with-github.com list has its base URL
rewritten to `https://github.com` and the github-context token replaced by
the configured replacement token; a step matching no entry is left entirely
unchanged by the rewrite (URL, token, and all other fields). -/
theorem replace_ghe_github_com :
    ∀ (entries : List String) (replToken : String) (ra : remoteAction) (ghToken : String),
      ((∀ e ∈ entries, equalFold (ra.Org ++ "/" ++ ra.Repo) e = false) →
        applyReplaceGhe entries replToken ra ghToken = (ra, ghToken)) ∧
      ((∃ e ∈ entries, equalFold (ra.Org ++ "/" ++ ra.Repo) e = true) →
        (applyReplaceGhe entries replToken ra ghToken).1.URL = "https://github.com" ∧
        (applyReplaceGhe entries replToken ra ghToken).2 = replToken ∧
        (applyReplaceGhe entries replToken ra ghToken).1.Org = ra.Org ∧
        (applyReplaceGhe entries replToken ra ghToken).1.Repo = ra.Repo ∧
        (applyReplaceGhe entries replToken ra ghToken).1.Path = ra.Path ∧
        (applyReplaceGhe entries replToken ra ghToken).1.Ref = ra.Ref) := by
  intro entries tok ra gh
  constructor
  · intro hnone
    induction entries with
    | nil => rfl
    | cons e es ih =>
      have he : equalFold (ra.Org ++ "/" ++ ra.Repo) e = false := hnone e (by simp)
      have hkeep : replaceGheStep tok (ra, gh) e = (ra, gh) := by
        simp only [replaceGheStep]
        rw [if_neg]
        simp [he]
      simp only [applyReplaceGhe, List.foldl_cons, hkeep]
      exact ih (fun x hx => hnone x (by simp [hx]))
  · intro hex
    obtain ⟨w, hw, hweq⟩ := hex
    induction entries with
    | nil => simp at hw
    | cons e es ih =>
      by_cases hm : equalFold (ra.Org ++ "/" ++ ra.Repo) e = true
      · have hset : replaceGheStep tok (ra, gh) e =
            ({ ra with URL := "https://github.com" }, tok) := by
          simp [replaceGheStep, hm]
        simp only [applyReplaceGhe, List.foldl_cons, hset]
        obtain ⟨k1, k2⟩ := foldGhe_keeps tok es ({ ra with URL := "https://github.com" }, tok) rfl rfl
        obtain ⟨f1, f2, f3, f4⟩ := foldGhe_fields tok es ({ ra with URL := "https://github.com" }, tok)
        exact ⟨k1, k2, f1, f2, f3, f4⟩
      · have hw' : w ∈ es := by
          rcases List.mem_cons.mp hw with h | h
          · exact absurd (h ▸ hweq) (by simp [hm])
          · exact h
        have hkeep : replaceGheStep tok (ra, gh) e = (ra, gh) := by
          simp only [replaceGheStep]
          rw [if_neg]
          simpa using hm
        simp only [applyReplaceGhe, List.foldl_cons, hkeep]
        exact ih hw'

theorem replace_ghe_github_com_witness :
    (applyReplaceGhe ["ORG/Repo"] "newtok" ⟨"https://ghe.corp", "org", "repo", "", "v1"⟩ "old").1.URL =
      "https://github.com" ∧
    (applyReplaceGhe ["ORG/Repo"] "newtok" ⟨"https://ghe.corp", "org", "repo", "", "v1"⟩ "old").2 =
      "newtok" ∧
    (applyReplaceGhe ["ORG/Repo"] "newtok" ⟨"https://ghe.corp", "org", "repo", "", "v1"⟩ "old").1.Org =
      (⟨"https://ghe.corp", "org", "repo", "", "v1"⟩ : remoteAction).Org ∧
    (applyReplaceGhe ["ORG/Repo"] "newtok" ⟨"https://ghe.corp", "org", "repo", "", "v1"⟩ "old").1.Repo =
      (⟨"https://ghe.corp", "org", "repo", "", "v1"⟩ : remoteAction).Repo ∧
    (applyReplaceGhe ["ORG/Repo"] "newtok" ⟨"https://ghe.corp", "org", "repo", "", "v1"⟩ "old").1.Path =
      (⟨"https://ghe.corp", "org", "repo", "", "v1"⟩ : remoteAction).Path ∧
    (applyReplaceGhe ["ORG/Repo"] "newtok" ⟨"https://ghe.corp", "org", "repo", "", "v1"⟩ "old").1.Ref =
      (⟨"https://ghe.corp", "org", "repo", "", "v1"⟩ : remoteAction).Ref :=
  (replace_ghe_github_com ["ORG/Repo"] "newtok" ⟨"https://ghe.corp", "org", "repo", "", "v1"⟩ "old").2
    ⟨"ORG/Repo", by decide, by decide⟩

/-- Claim C6 counterexample: on `"a/b/c@d@e"` the parser splits at the
first `@` after the subpath, yielding subpath `"c"` and version `"d@e"` —
not subpath `"c@d"` and version `"e"` as the everything-after-the-last-`@`
reading of the claim requires. -/
theorem parse_last_at_counterexample :
    parseAction "a/b/c@d@e" = some ⟨"", "a", "b", "c", "d@e"⟩ ∧
    (⟨"", "a", "b", "c", "d@e"⟩ : remoteAction) ≠ ⟨"", "a", "b", "c@d", "e"⟩ := by
  exact ⟨by decide, by decide⟩

/-- Claim C6 (amended): for every successfully parsed bare reference, org
and repo are the first two path segments (nonempty, free of `/` and `@`),
the subpath contains no `@`, and the version is everything after the first
`@` that follows the repo (and optional subpath) — the `@` exhibited in the
decomposition is the first `@` of the string; the concrete examples of the
claim hold as stated. -/
theorem parse_components_first_at :
    (∀ (s : String) (ra : remoteAction), parseAction s = some ra →
      ra.URL = "" ∧ ra.Org.data ≠ [] ∧ ra.Repo.data ≠ [] ∧ ra.Ref.data ≠ [] ∧
      (∀ c ∈ ra.Org.data, c ≠ '/' ∧ c ≠ '@') ∧
      (∀ c ∈ ra.Repo.data, c ≠ '/' ∧ c ≠ '@') ∧
      (∀ c ∈ ra.Path.data, c ≠ '@') ∧
      ((ra.Path = "" ∧ s.data = ra.Org.data ++ '/' :: ra.Repo.data ++ '@' :: ra.Ref.data) ∨
        s.data = ra.Org.data ++ '/' :: ra.Repo.data ++ '/' :: ra.Path.data ++ '@' :: ra.Ref.data)) ∧
    parseAction "actions/checkout@v4" = some ⟨"", "actions", "checkout", "", "v4"⟩ ∧
    parseAction "actions/checkout/subdir@v4" = some ⟨"", "actions", "checkout", "subdir", "v4"⟩ := by
  exact ⟨fun s ra h => parseActionList_some_decomp s.data ra h, by decide, by decide⟩

theorem parse_components_first_at_witness :
    ("actions/checkout/subdir@v4" : String).data =
      ("actions" : String).data ++ '/' :: ("checkout" : String).data ++ '/' ::
        ("subdir" : String).data ++ '@' :: ("v4" : String).data := by
  have h := parse_components_first_at.1 "actions/checkout/subdir@v4"
    ⟨"", "actions", "checkout", "subdir", "v4"⟩ (by decide)
  rcases h.2.2.2.2.2.2.2 with ⟨hp, _⟩ | hs
  · exact absurd hp (by decide)
  · exact hs

/-- Claim C1 counterexample: with trusted origin `https://a.com` and a
configured token, a reference resolved against host `https://a.community`
(a different host) still receives the token, because the code tests
`strings.HasPrefix` of the clone URL, not host equality. -/
theorem cloneToken_host_mismatch_counterexample :
    cloneToken "https://a.com" "secret"
      (remoteAction.CloneURL ⟨"https://a.community", "org", "repo", "", "v1"⟩ "https://a.com") =
      "secret" ∧
    remoteAction.resolvedBase ⟨"https://a.community", "org", "repo", "", "v1"⟩ "https://a.com" ≠
      "https://a.com" := by
  exact ⟨by decide, by decide⟩

/-- Claim C1 (amended): the token is attached exactly when the configured
trusted origin is a string prefix of the clone URL.  A reference whose
resolved base equals the origin always receives the configured token; a
reference whose clone URL does not extend the origin string never receives
one; but prefix matching is coarser than host equality, so some references
with a different host (whose clone URL merely begins with the origin
string) also receive the token. -/
theorem cloneToken_prefix_scoping :
    ∀ (origin runnerToken : String) (ra : remoteAction) (u : String),
      (ra.resolvedBase u = origin →
        cloneToken origin runnerToken (ra.CloneURL u) = runnerToken) ∧
      (hasPrefixGo origin (ra.CloneURL u) = false →
        cloneToken origin runnerToken (ra.CloneURL u) = "") ∧
      (hasPrefixGo origin (ra.CloneURL u) = true →
        cloneToken origin runnerToken (ra.CloneURL u) = runnerToken) := by
  intro o tok ra u
  refine ⟨?_, ?_, ?_⟩
  · intro h
    have hp : hasPrefixGo o (ra.CloneURL u) = true := by
      rw [cloneURL_eq_base, h, hasPrefixGo]
      have hd : (o ++ "/" ++ ra.Org ++ "/" ++ ra.Repo).data =
          o.data ++ ("/" ++ ra.Org ++ "/" ++ ra.Repo).data := by
        simp [str_data_append, List.append_assoc]
      rw [hd]
      exact isPrefixOf_append_self _ _
    simp [cloneToken, isActionOnGiteaInstance, hp]
  · intro h
    simp [cloneToken, isActionOnGiteaInstance, h]
  · intro h
    simp [cloneToken, isActionOnGiteaInstance, h]

theorem cloneToken_prefix_scoping_witness :
    cloneToken "https://gitea.example.com" "tok"
      (remoteAction.CloneURL ⟨"https://gitea.example.com", "o", "r", "", "v"⟩ "u") = "tok" :=
  (cloneToken_prefix_scoping "https://gitea.example.com" "tok"
    ⟨"https://gitea.example.com", "o", "r", "", "v"⟩ "u").1 (by decide)
theorem not_mem_append (x : Char) (a b : List Char) (ha : x ∉ a) (hb : x ∉ b) :
    x ∉ a ++ b := by
  intro h
  rcases List.mem_append.mp h with h | h
  · exact ha h
  · exact hb h

theorem not_mem_cons (x c : Char) (b : List Char) (hx : x ≠ c) (hb : x ∉ b) :
    x ∉ c :: b := by
  intro h
  rcases List.mem_cons.mp h with h | h
  · exact hx h
  · exact hb h

/-- Claim C3: a uses string with no `@` at all, or whose part after its
only terminal `@` is empty, or with no `/` before the first `@` (fewer than
the required org/repo segments) fails to parse, returning `none` and never a
partially filled reference. -/
theorem parse_failure_modes :
    (∀ s : String, '@' ∉ s.data → parseAction s = none) ∧
    (∀ s : String, '@' ∉ s.data → parseAction (s ++ "@") = none) ∧
    (∀ s : String, '/' ∉ s.data.takeWhile (fun c => !(c == '@')) → parseAction s = none) := by
  refine ⟨?_, ?_, ?_⟩
  · intro s hs
    rcases hp : parseAction s with _ | ra
    · rfl
    · exfalso
      obtain ⟨_, _, _, _, _, _, _, hshape⟩ := parseActionList_some_decomp s.data ra hp
      rcases hshape with ⟨_, he⟩ | he <;>
        exact hs (by rw [he]; simp)
  · intro s hs
    rcases hp : parseAction (s ++ "@") with _ | ra
    · rfl
    · exfalso
      obtain ⟨_, _, _, href, horg, hrepo, hpath, hshape⟩ :=
        parseActionList_some_decomp (s ++ "@").data ra hp
      have hsd : (s ++ "@").data = s.data ++ '@' :: ([] : List Char) := by
        simp [str_data_append]
      rcases hshape with ⟨_, he⟩ | he
      · have he' : (ra.Org.data ++ '/' :: ra.Repo.data) ++ '@' :: ra.Ref.data =
            s.data ++ '@' :: ([] : List Char) := by
          rw [← hsd, he]
          try simp [List.append_assoc]
        have hfree : '@' ∉ ra.Org.data ++ '/' :: ra.Repo.data :=
          not_mem_append _ _ _ (fun hm => (horg _ hm).2 rfl)
            (not_mem_cons _ _ _ (by decide) (fun hm => (hrepo _ hm).2 rfl))
        obtain ⟨_, hrefnil⟩ := first_occ_unique _ _ _ _ hfree hs he'
        exact href hrefnil
      · have he' : (ra.Org.data ++ '/' :: ra.Repo.data ++ '/' :: ra.Path.data) ++ '@' :: ra.Ref.data =
            s.data ++ '@' :: ([] : List Char) := by
          rw [← hsd, he]
          try simp [List.append_assoc]
        have hfree : '@' ∉ ra.Org.data ++ '/' :: ra.Repo.data ++ '/' :: ra.Path.data :=
          not_mem_append _ _ _
            (not_mem_append _ _ _ (fun hm => (horg _ hm).2 rfl)
              (not_mem_cons _ _ _ (by decide) (fun hm => (hrepo _ hm).2 rfl)))
            (not_mem_cons _ _ _ (by decide) (fun hm => hpath _ hm rfl))
        obtain ⟨_, hrefnil⟩ := first_occ_unique _ _ _ _ hfree hs he'
        exact href hrefnil
  · intro s hs
    rcases hp : parseAction s with _ | ra
    · rfl
    · exfalso
      obtain ⟨_, _, _, _, horg, _, _, hshape⟩ := parseActionList_some_decomp s.data ra hp
      have horgq : ∀ x ∈ ra.Org.data, (fun c => !(c == '@')) x = true := by
        intro x hx
        simp only [Bool.not_eq_true', beq_eq_false_iff_ne, ne_eq]
        exact (horg x hx).2
      apply hs
      rcases hshape with ⟨_, he⟩ | he
      · rw [he]
        have hr : (ra.Org.data ++ '/' :: ra.Repo.data ++ '@' :: ra.Ref.data) =
            ra.Org.data ++ '/' :: (ra.Repo.data ++ '@' :: ra.Ref.data) := by
          simp [List.append_assoc]
        rw [hr, takeWhile_append_all _ _ _ horgq]
        simp [List.takeWhile_cons]
      · rw [he]
        have hr : (ra.Org.data ++ '/' :: ra.Repo.data ++ '/' :: ra.Path.data ++ '@' :: ra.Ref.data) =
            ra.Org.data ++ '/' :: (ra.Repo.data ++ '/' :: ra.Path.data ++ '@' :: ra.Ref.data) := by
          simp [List.append_assoc]
        rw [hr, takeWhile_append_all _ _ _ horgq]
        simp [List.takeWhile_cons]

theorem parse_failure_modes_witness :
    parseAction "org/repo" = none ∧ parseAction ("org/repo" ++ "@") = none ∧
      parseAction "actionscheckout@v4" = none :=
  ⟨parse_failure_modes.1 "org/repo" (by decide),
    parse_failure_modes.2.1 "org/repo" (by decide),
    parse_failure_modes.2.2 "actionscheckout@v4" (by decide)⟩
theorem str_append_assoc (a b c : String) : (a ++ b) ++ c = a ++ (b ++ c) :=
  String.ext (by simp [str_data_append, List.append_assoc])

theorem trimPrefixGo_append (pre rest : String) :
    trimPrefixGo pre (pre ++ rest) = rest := by
  have hp : hasPrefixGo pre (pre ++ rest) = true := by
    rw [hasPrefixGo, str_data_append]
    exact isPrefixOf_append_self _ _
  rw [trimPrefixGo, if_pos hp, str_data_append, List.drop_left, asString_data]

/-- Dispatch fact: an `http://`-prefixed string never passes the
`https://` prefix test of `newRemoteAction`, whatever follows the scheme. -/
theorem https_not_prefix_of_http (s : String) :
    hasPrefixGo "https://" ("http://" ++ s) = false := rfl

/-- The non-service-prefix branch of `newRemoteActionSchema`, for any
scheme string: the host (first path segment after the scheme) becomes the
base URL and the remainder is parsed by the standard grammar. -/
theorem newRemoteActionSchema_nosvc (schema host rest : String) (ra : remoteAction)
    (hhost : '/' ∉ host.data)
    (hsvc : hasAServicePrefix (schema ++ host ++ "/" ++ rest) = false)
    (hparse : parseAction rest = some ra) :
    newRemoteActionSchema schema (schema ++ host ++ "/" ++ rest) =
      some { ra with URL := schema ++ host } := by
  have hact : (schema ++ host ++ "/" ++ rest) = schema ++ (host ++ ("/" ++ rest)) := by
    simp [str_append_assoc]
  have htrim : trimPrefixGo schema (schema ++ host ++ "/" ++ rest) =
      host ++ ("/" ++ rest) := by
    rw [hact]
    exact trimPrefixGo_append _ _
  have hdata : (host ++ ("/" ++ rest)).data = host.data ++ '/' :: rest.data := by
    simp [str_data_append]
  have hsplit : splitN (host ++ ("/" ++ rest)) '/' 2 = [host, rest] := by
    rw [splitN, hdata]
    have hstep := splitNList_step '/' 0 host.data rest.data hhost
    norm_num at hstep
    rw [hstep, splitNList_one]
    simp [asString_data]
  rw [newRemoteActionSchema]
  rw [if_neg (by simp [hsvc])]
  rw [htrim, hsplit]
  simp [hparse]

/-- The service-prefix branch of `newRemoteActionSchema`, for any scheme
string: host and one extra leading segment become the base URL and the
remainder is parsed by the standard grammar. -/
theorem newRemoteActionSchema_svc (schema host seg rest : String) (ra : remoteAction)
    (hhost : '/' ∉ host.data) (hseg : '/' ∉ seg.data)
    (hsvc : hasAServicePrefix (schema ++ host ++ "/" ++ seg ++ "/" ++ rest) = true)
    (hparse : parseAction rest = some ra) :
    newRemoteActionSchema schema (schema ++ host ++ "/" ++ seg ++ "/" ++ rest) =
      some { ra with URL := schema ++ host ++ "/" ++ seg } := by
  have hact : (schema ++ host ++ "/" ++ seg ++ "/" ++ rest) =
      schema ++ (host ++ ("/" ++ (seg ++ ("/" ++ rest)))) := by
    simp [str_append_assoc]
  have htrim : trimPrefixGo schema (schema ++ host ++ "/" ++ seg ++ "/" ++ rest) =
      host ++ ("/" ++ (seg ++ ("/" ++ rest))) := by
    rw [hact]
    exact trimPrefixGo_append _ _
  have hdata : (host ++ ("/" ++ (seg ++ ("/" ++ rest)))).data =
      host.data ++ '/' :: (seg.data ++ '/' :: rest.data) := by
    simp [str_data_append]
  have hsplit : splitN (host ++ ("/" ++ (seg ++ ("/" ++ rest)))) '/' 3 = [host, seg, rest] := by
    rw [splitN, hdata]
    have hstep1 := splitNList_step '/' 1 host.data (seg.data ++ '/' :: rest.data) hhost
    norm_num at hstep1
    rw [hstep1]
    have hstep2 := splitNList_step '/' 0 seg.data rest.data hseg
    norm_num at hstep2
    rw [hstep2, splitNList_one]
    simp [asString_data]
  rw [newRemoteActionSchema, if_pos hsvc]
  rw [htrim, hsplit]
  simp [hparse]

/-- Claim C5: for uses strings with an `http://` or `https://` scheme
prefix, when the service-prefix predicate matches the string the parser
consumes one extra leading path segment after the host and records
`scheme://host/extra-segment` as the base URL; otherwise it records
`scheme://host`; in both cases the remainder is parsed by the standard
grammar.  The concrete examples instantiate both branches under both
schemes, with the predicate the code actually uses. -/
theorem scheme_parse_base_url :
    (∀ (schema host rest : String) (ra : remoteAction),
      (schema = "https://" ∨ schema = "http://") →
      '/' ∉ host.data →
      hasAServicePrefix (schema ++ host ++ "/" ++ rest) = false →
      parseAction rest = some ra →
      newRemoteAction (schema ++ host ++ "/" ++ rest) =
        some { ra with URL := schema ++ host }) ∧
    (∀ (schema host seg rest : String) (ra : remoteAction),
      (schema = "https://" ∨ schema = "http://") →
      '/' ∉ host.data → '/' ∉ seg.data →
      hasAServicePrefix (schema ++ host ++ "/" ++ seg ++ "/" ++ rest) = true →
      parseAction rest = some ra →
      newRemoteAction (schema ++ host ++ "/" ++ seg ++ "/" ++ rest) =
        some { ra with URL := schema ++ host ++ "/" ++ seg }) ∧
    newRemoteAction "https://example.com/org/repo@v1" =
      some ⟨"https://example.com", "org", "repo", "", "v1"⟩ ∧
    newRemoteAction "http://example.com/org/repo@v1" =
      some ⟨"http://example.com", "org", "repo", "", "v1"⟩ ∧
    newRemoteAction "https://internal-git.juegostudio.net/git/org/repo@v1" =
      some ⟨"https://internal-git.juegostudio.net/git", "org", "repo", "", "v1"⟩ ∧
    newRemoteAction "http://internal-git.juegostudio.net/git/org/repo@v1" =
      some ⟨"http://internal-git.juegostudio.net/git", "org", "repo", "", "v1"⟩ := by
  refine ⟨?_, ?_, by decide, by decide, by decide, by decide⟩
  · intro schema host rest ra hschema hhost hsvc hparse
    rcases hschema with h | h <;> subst h
    · have hpre : hasPrefixGo "https://" ("https://" ++ host ++ "/" ++ rest) = true := by
        have hact : ("https://" ++ host ++ "/" ++ rest) =
            "https://" ++ (host ++ ("/" ++ rest)) := by
          simp [str_append_assoc]
        rw [hact, hasPrefixGo, str_data_append]
        exact isPrefixOf_append_self _ _
      rw [newRemoteAction, if_pos hpre]
      exact newRemoteActionSchema_nosvc _ _ _ _ hhost hsvc hparse
    · have hact : ("http://" ++ host ++ "/" ++ rest) =
          "http://" ++ (host ++ ("/" ++ rest)) := by
        simp [str_append_assoc]
      have hno : hasPrefixGo "https://" ("http://" ++ host ++ "/" ++ rest) = false := by
        rw [hact]
        exact https_not_prefix_of_http _
      have hpre : hasPrefixGo "http://" ("http://" ++ host ++ "/" ++ rest) = true := by
        rw [hact, hasPrefixGo, str_data_append]
        exact isPrefixOf_append_self _ _
      rw [newRemoteAction, if_neg (by simp [hno]), if_pos hpre]
      exact newRemoteActionSchema_nosvc _ _ _ _ hhost hsvc hparse
  · intro schema host seg rest ra hschema hhost hseg hsvc hparse
    rcases hschema with h | h <;> subst h
    · have hpre : hasPrefixGo "https://" ("https://" ++ host ++ "/" ++ seg ++ "/" ++ rest) =
          true := by
        have hact : ("https://" ++ host ++ "/" ++ seg ++ "/" ++ rest) =
            "https://" ++ (host ++ ("/" ++ (seg ++ ("/" ++ rest)))) := by
          simp [str_append_assoc]
        rw [hact, hasPrefixGo, str_data_append]
        exact isPrefixOf_append_self _ _
      rw [newRemoteAction, if_pos hpre]
      exact newRemoteActionSchema_svc _ _ _ _ _ hhost hseg hsvc hparse
    · have hact : ("http://" ++ host ++ "/" ++ seg ++ "/" ++ rest) =
          "http://" ++ (host ++ ("/" ++ (seg ++ ("/" ++ rest)))) := by
        simp [str_append_assoc]
      have hno : hasPrefixGo "https://" ("http://" ++ host ++ "/" ++ seg ++ "/" ++ rest) =
          false := by
        rw [hact]
        exact https_not_prefix_of_http _
      have hpre : hasPrefixGo "http://" ("http://" ++ host ++ "/" ++ seg ++ "/" ++ rest) =
          true := by
        rw [hact, hasPrefixGo, str_data_append]
        exact isPrefixOf_append_self _ _
      rw [newRemoteAction, if_neg (by simp [hno]), if_pos hpre]
      exact newRemoteActionSchema_svc _ _ _ _ _ hhost hseg hsvc hparse

theorem scheme_parse_base_url_witness :
    newRemoteAction ("http://" ++ "example.org" ++ "/" ++ "o/r@v2") =
      some { (⟨"", "o", "r", "", "v2"⟩ : remoteAction) with URL := "http://" ++ "example.org" } :=
  scheme_parse_base_url.1 "http://" "example.org" "o/r@v2" ⟨"", "o", "r", "", "v2"⟩
    (Or.inr rfl) (by decide) (by decide) (by decide)
